import Mathlib

/-!
Verification development for the pkarr fragment: the BEP44 envelope
(`src/pkarr/src/bep44.rs`), the monotonic-write cache contract of the spec
(§4.4, `cache.rs` is not part of the shown sources), and the rate-limited
resolver (`src/server/src/dht_server.rs`).

Bytes are modelled as `List Nat` (each element a `u8` value), `u64` values as
`Nat` with explicit `% 2 ^ 64` reasoning where overflow matters.
-/

namespace Pkarr

/-- Big-endian encoding of `n` into `w` bytes (the low `w` bytes of `n`),
mirroring Rust's `u64::to_be_bytes` when `w = 8`. -/
def encodeBE : Nat → Nat → List Nat
  | 0, _ => []
  | w + 1, n => encodeBE w (n / 256) ++ [n % 256]

/-- Big-endian decoding, mirroring Rust's `u64::from_be_bytes`. -/
def beToNat (l : List Nat) : Nat :=
  l.foldl (fun a b => a * 256 + b) 0

/-- Modelled from the spec: `keys.rs` (§4.1 Identity & Signing) is not among
the shown sources.  A public key is its 32 raw Ed25519 verification-key bytes
(§3). -/
structure PublicKey where
  bytes : List Nat
  deriving DecidableEq, Repr

/-- Modelled from the spec: `keys.rs` is not among the shown sources.  A
keypair owns secret material and derives exactly one public key (§3). -/
structure Keypair where
  sk : Nat
  deriving DecidableEq, Repr

/-- Modelled from the spec: an injective digest of the signed message, used by
the idealized deterministic signature scheme below. -/
def msgTag (m : List Nat) : Nat :=
  (m.foldl (fun a b => a * 257 + (b + 1)) 0) % (2 ^ 256)

/-- Modelled from the spec: `keypair.public_key()` derives exactly one
public key from the secret (§3). -/
def Keypair.public_key (kp : Keypair) : PublicKey :=
  ⟨encodeBE 32 kp.sk⟩

/-- Modelled from the spec: `sign(message)` is a deterministic Ed25519
signature, 64 bytes, over an arbitrary byte string (§4.1).  Idealized scheme:
the signature binds the signer (first 32 bytes) and the message digest
(last 32 bytes). -/
def Keypair.sign (kp : Keypair) (m : List Nat) : List Nat :=
  encodeBE 32 kp.sk ++ encodeBE 32 (msgTag m)

/-- Modelled from the spec: `verify(message, signature)` fails with
`InvalidSignature` unless the signature matches under the public key (§4.1);
in the idealized scheme it accepts exactly the signer's own signature. -/
def PublicKey.verify (pk : PublicKey) (m sig : List Nat) : Bool :=
  sig == pk.bytes ++ encodeBE 32 (msgTag m)

/-- Decimal rendering of an unsigned integer as ASCII bytes, as produced by
Rust's `format!`/`Display` for `u64` and `usize` (repeated division by 10, no
leading zeros, `0` renders as `"0"`).  The fuel argument only makes the
recursion structural; `decimalAux (n + 1) n` always has enough fuel. -/
def decimalAux : Nat → Nat → List Nat
  | 0, _ => []
  | fuel + 1, n =>
    if n < 10 then [48 + n] else decimalAux fuel (n / 10) ++ [48 + n % 10]

/-- Decimal ASCII bytes of `n`, as Rust's `format!("{}", n)` produces. -/
def u64Decimal (n : Nat) : List Nat :=
  decimalAux (n + 1) n

/-- The bytes of an ASCII string literal (`str::as_bytes` on the formatting
literals used in `bep44.rs`). -/
def asciiBytes (s : String) : List Nat :=
  s.data.map Char.toNat

/-- `signable` from `bep44.rs`: the canonical signable string
`format!("3:seqi{}e1:v{}:", seq, v.len()).as_bytes()` followed by the raw
payload bytes. -/
def signable (seq : Nat) (v : List Nat) : List Nat :=
  (asciiBytes "3:seqi" ++ u64Decimal seq ++ asciiBytes "e1:v" ++
    u64Decimal v.length ++ asciiBytes ":") ++ v

/-- The error variants of `bep44.rs` / the spec's §7 taxonomy (`error.rs`
itself is not among the shown sources; variant names follow the uses in
`bep44.rs` and the spec). -/
inductive Error where
  | RelayPayloadInvalidSignatureLength (len : Nat)
  | RelayPayloadInvalidSequenceLength (len : Nat)
  | InvalidSignature
  deriving DecidableEq, Repr

/-- `Bep44Args` from `bep44.rs`: public key, sequence, payload, signature. -/
structure Bep44Args where
  k : PublicKey
  seq : Nat
  v : List Nat
  sig : List Nat
  deriving DecidableEq, Repr

/-- `Bep44Args::try_from_relay_response`, generalized over the verification
predicate `ver` (the call `public_key.verify(&signable, &sig)` on the injected
crypto collaborator): length guards first, then split
`sig = bytes[0..64]`, `seq = u64::from_be_bytes(bytes[64..72])`,
`v = bytes[72..]`, rebuild the signable string and verify. -/
def tryFromRelayResponseWith (ver : List Nat → List Nat → Bool)
    (public_key : PublicKey) (bytes : List Nat) : Except Error Bep44Args :=
  let bytes_length := bytes.length
  if bytes_length < 64 then
    .error (.RelayPayloadInvalidSignatureLength bytes_length)
  else
    let sig := bytes.take 64
    if bytes_length < 72 then
      .error (.RelayPayloadInvalidSequenceLength (bytes_length - 64))
    else
      let seq := beToNat ((bytes.drop 64).take 8)
      let v := bytes.drop 72
      let sgn := signable seq v
      if ver sgn sig then
        .ok { k := ⟨public_key.bytes⟩, seq := seq, v := v, sig := sig }
      else
        .error .InvalidSignature

/-- `Bep44Args::try_from_relay_response` with the real `PublicKey::verify`. -/
def Bep44Args.try_from_relay_response (public_key : PublicKey)
    (bytes : List Nat) : Except Error Bep44Args :=
  tryFromRelayResponseWith (fun m s => public_key.verify m s) public_key bytes

/-- `Bep44Args::try_from_packet`: `seq` models `system_time_now()` (a
nondeterministic wall-clock reading, passed as a parameter) and `v` models
`packet.build_bytes_vec_compressed()` (the opaque DNS codec output, §6);
sign the canonical signable string and assemble the args. -/
def Bep44Args.try_from_packet (keypair : Keypair) (seq : Nat) (v : List Nat) :
    Bep44Args :=
  let sgn := signable seq v
  let signature := keypair.sign sgn
  { k := keypair.public_key, sig := signature, seq := seq, v := v }

/-- `Bep44Args::relay_payload`: `sig(64) || seq.to_be_bytes() || v`. -/
def Bep44Args.relay_payload (a : Bep44Args) : List Nat :=
  a.sig ++ encodeBE 8 a.seq ++ a.v

/-- Reference decimal rendering (the spec's "rendered in decimal"): the
base-10 digits of `n` (most significant first), offset to ASCII; `0` renders
as `"0"`. -/
def decimalDigitsAscii (n : Nat) : List Nat :=
  if n = 0 then [48] else ((Nat.digits 10 n).reverse.map (fun d => 48 + d))

/-- Modelled from the spec: the view of a `SignedPacket` that the cache
stores (`signed_packet.rs` and `cache.rs` are not among the shown sources):
owner public key, sequence number, and the record payload (§3). -/
structure StoredPacket where
  public_key : PublicKey
  seq : Nat
  payload : List Nat
  deriving DecidableEq, Repr

/-- Modelled from the spec: the cache is a key-value store keyed by public
key (§4.4); eviction/capacity is a pluggable concern outside the contract, so
the model is the plain association list of stored packets. -/
abbrev PkarrCache := List StoredPacket

/-- Modelled from the spec: `get(public_key)` returns the stored entry for
that key irrespective of freshness (§4.4). -/
def PkarrCache.get (c : PkarrCache) (k : PublicKey) : Option StoredPacket :=
  c.find? (fun e => e.public_key == k)

/-- Modelled from the spec: `put(signed_packet)` inserts if absent; if
present, replaces only when `signed_packet.sequence > existing.sequence`;
otherwise no-op (§4.4). -/
def PkarrCache.put (c : PkarrCache) (p : StoredPacket) : PkarrCache :=
  match c with
  | [] => [p]
  | e :: rest =>
    if e.public_key == p.public_key then
      if e.seq < p.seq then p :: rest else e :: rest
    else e :: PkarrCache.put rest p

end Pkarr

namespace PkarrServer

open Pkarr

/-- A socket address as the server sees it: `from.ip()` and a port. -/
structure Addr where
  ip : Nat
  port : Nat
  deriving DecidableEq, Repr

/-- `GetValueRequestArguments` from `mainline::rpc::messages`: target plus
the optional `seq` and `salt` arguments. -/
structure GetValueRequestArguments where
  target : Nat
  seq : Option Nat
  salt : Option (List Nat)
  deriving DecidableEq, Repr

/-- `RequestTypeSpecific`: the `GetValue` variant matched by the resolver;
every other request kind (ping, find_node, put, ...) is collapsed into an
opaque tag, since the resolver only forwards them. -/
inductive RequestTypeSpecific where
  | getValue (args : GetValueRequestArguments)
  | otherRequest (kind : Nat)
  deriving DecidableEq, Repr

/-- `RequestSpecific`: requester id plus the request-type payload. -/
structure RequestSpecific where
  requesterId : Nat
  requestType : RequestTypeSpecific
  deriving DecidableEq, Repr

/-- `GetMutableResponseArguments` from `mainline::rpc::messages`. -/
structure GetMutableResponseArguments where
  responderId : Nat
  token : List Nat
  nodes : Option (List Nat)
  v : List Nat
  k : List Nat
  seq : Nat
  sig : List Nat
  deriving DecidableEq, Repr

/-- `ResponseSpecific`: the resolver only ever builds `GetMutable`. -/
inductive ResponseSpecific where
  | getMutable (args : GetMutableResponseArguments)
  deriving DecidableEq, Repr

/-- The cached signed packet as `dht_server.rs` reads it through
`MutableItem::from(&cached)` and `cached.expires_in(..)`:
key / value / seq / sig bytes, plus the freshness inputs of the spec's §3
(`signed_packet.rs` is not among the shown sources). -/
structure CachedSignedPacket where
  keyBytes : List Nat
  valueBytes : List Nat
  seqNumber : Nat
  sigBytes : List Nat
  minRecordTtl : Nat
  elapsed : Nat
  deriving DecidableEq, Repr

/-- Modelled from the spec: `expires_in(min_ttl, max_ttl) =
max(0, effective_ttl − elapsed_since(stored_at))` with `effective_ttl`
clamped into `[min_ttl, max_ttl]` (§3); truncated `Nat` subtraction is the
`max(0, ·)`. -/
def CachedSignedPacket.expires_in (p : CachedSignedPacket)
    (minimum_ttl maximum_ttl : Nat) : Nat :=
  min maximum_ttl (max minimum_ttl p.minRecordTtl) - p.elapsed

/-- The externally visible actions `DhtServer::handle_request` performs, in
order: `rpc.response(..)`, `rate_limiter.is_limited(&from.ip())`,
`rpc.get(..)` (third argument, always `None` in the source, omitted), and
delegation to `inner.handle_request(..)`. -/
inductive Effect where
  | response (dest : Addr) (transactionId : Nat) (resp : ResponseSpecific)
  | rateLimitCheck (ip : Nat)
  | dhtGet (target : Nat) (args : GetValueRequestArguments)
      (resolvers : Option (List Addr))
  | innerHandleRequest (fromAddr : Addr) (transactionId : Nat)
      (request : RequestSpecific)
  deriving DecidableEq, Repr

/-- The `DhtServer` state of `dht_server.rs`: configured resolver addresses,
TTL bounds, the cache read view (`HeedPkarrCache::get`; the LMDB-backed store
is not among the shown sources, so it is a lookup function), and the rate
limiter verdict per IP (`rate_limiting.rs` is likewise not shown). -/
structure DhtServer where
  resolvers : Option (List Addr)
  cacheGet : Nat → Option CachedSignedPacket
  minimum_ttl : Nat
  maximum_ttl : Nat
  is_limited : Nat → Bool

/-- `DhtServer::handle_request` as the ordered list of effects it emits:
on a `GetValue` request, respond from cache when present (even if expired),
decide `should_query` (cache miss, or cached entry expired), and if so
consult the rate limiter and, when not limited, issue one `rpc.get` with
fresh arguments; every request is finally delegated to the inner default
server. -/
def handleRequest (s : DhtServer) (rpcId : Nat) (fromAddr : Addr)
    (transactionId : Nat) (request : RequestSpecific) : List Effect :=
  (match request.requestType with
   | .getValue args =>
     let step :=
       match s.cacheGet args.target with
       | some cached =>
         ([Effect.response fromAddr transactionId (.getMutable
             { responderId := rpcId
               token := [0, 0, 0, 0]
               nodes := none
               v := cached.valueBytes
               k := cached.keyBytes
               seq := cached.seqNumber
               sig := cached.sigBytes })],
          cached.expires_in s.minimum_ttl s.maximum_ttl == 0)
       | none => ([], true)
     step.1 ++
       (if step.2 then
         Effect.rateLimitCheck fromAddr.ip ::
           (if s.is_limited fromAddr.ip then []
            else [Effect.dhtGet args.target
                    { target := args.target, seq := none, salt := none }
                    s.resolvers])
        else [])
   | .otherRequest _ => []) ++
  [Effect.innerHandleRequest fromAddr transactionId request]

/-- Whether an effect is an emitted response. -/
def Effect.isResponse : Effect → Bool
  | .response .. => true
  | _ => false

/-- Whether an effect is an outbound DHT lookup. -/
def Effect.isDhtGet : Effect → Bool
  | .dhtGet .. => true
  | _ => false

/-- Whether an effect is a rate-limiter consultation. -/
def Effect.isRateLimitCheck : Effect → Bool
  | .rateLimitCheck .. => true
  | _ => false

/-- Whether an effect is the delegation to the inner default server. -/
def Effect.isInnerHandle : Effect → Bool
  | .innerHandleRequest .. => true
  | _ => false

/-- A concrete fresh cache entry (effective TTL 100, nothing elapsed). -/
def sampleFreshPacket : CachedSignedPacket :=
  { keyBytes := [1], valueBytes := [2, 3], seqNumber := 5, sigBytes := [4]
    minRecordTtl := 100, elapsed := 0 }

/-- A concrete expired cache entry (stored longer ago than any allowed TTL). -/
def sampleExpiredPacket : CachedSignedPacket :=
  { keyBytes := [1], valueBytes := [2, 3], seqNumber := 5, sigBytes := [4]
    minRecordTtl := 100, elapsed := 1000000 }

/-- A concrete server: target 7 cached fresh, target 8 cached expired,
everything else a miss; IP 99 is rate limited. -/
def sampleServer : DhtServer :=
  { resolvers := some [⟨9, 9⟩]
    cacheGet := fun t =>
      if t = 7 then some sampleFreshPacket
      else if t = 8 then some sampleExpiredPacket
      else none
    minimum_ttl := 30
    maximum_ttl := 86400
    is_limited := fun ip => ip == 99 }

/-- A concrete inbound `GetValue` request for target `t` (with inbound `seq`
and `salt` arguments present, to exercise that they are ignored). -/
def sampleGetReq (t : Nat) : RequestSpecific :=
  { requesterId := 11, requestType := .getValue ⟨t, some 42, some [6]⟩ }

end PkarrServer

namespace Pkarr

deriving instance DecidableEq for Except

theorem take_append_len (a b : List Nat) (n : Nat) (h : a.length = n) :
    (a ++ b).take n = a := by
  subst h; exact List.take_left a b

theorem drop_append_len (a b : List Nat) (n : Nat) (h : a.length = n) :
    (a ++ b).drop n = b := by
  subst h; exact List.drop_left a b

theorem encodeBE_length (w n : Nat) : (encodeBE w n).length = w := by
  induction w generalizing n with
  | zero => rfl
  | succ w ih => simp [encodeBE, ih]

theorem beToNat_encodeBE (w n : Nat) : beToNat (encodeBE w n) = n % 256 ^ w := by
  induction w generalizing n with
  | zero => simp [encodeBE, beToNat]; omega
  | succ w ih =>
    have hm : n % (256 * 256 ^ w) = n % 256 + 256 * (n / 256 % 256 ^ w) :=
      Nat.mod_mul
    have ihn := ih (n / 256)
    simp only [encodeBE, beToNat, List.foldl_append, List.foldl] at *
    rw [ihn, pow_succ, mul_comm (256 ^ w) 256, hm]
    ring

theorem sign_length (kp : Keypair) (m : List Nat) : (kp.sign m).length = 64 := by
  simp [Keypair.sign, encodeBE_length]

theorem decimalAux_eq (fuel n : Nat) (h : n < fuel) :
    decimalAux fuel n = decimalDigitsAscii n := by
  induction fuel generalizing n with
  | zero => omega
  | succ fuel ih =>
    rw [decimalAux, decimalDigitsAscii]
    by_cases h10 : n < 10
    · rw [if_pos h10]
      by_cases h0 : n = 0
      · subst h0; simp
      · rw [if_neg h0]
        rw [Nat.digits_def' (by norm_num : (1:ℕ) < 10) (Nat.pos_of_ne_zero h0)]
        rw [Nat.div_eq_of_lt h10]
        simp [Nat.mod_eq_of_lt h10]
    · rw [if_neg h10, if_neg (by omega : ¬ n = 0)]
      have hlt : n / 10 < n := Nat.div_lt_self (by omega) (by omega)
      rw [ih (n / 10) (by omega), decimalDigitsAscii,
        if_neg (by omega : ¬ n / 10 = 0)]
      rw [Nat.digits_def' (by norm_num : (1:ℕ) < 10) (by omega : 0 < n)]
      simp

theorem u64Decimal_eq (n : Nat) : u64Decimal n = decimalDigitsAscii n :=
  decimalAux_eq (n + 1) n (by omega)

theorem tryFromRelayResponseWith_ge72 (ver : List Nat → List Nat → Bool)
    (pk : PublicKey) (bytes : List Nat) (h : 72 ≤ bytes.length) :
    tryFromRelayResponseWith ver pk bytes =
      (if ver (signable (beToNat ((bytes.drop 64).take 8)) (bytes.drop 72))
          (bytes.take 64) then
        .ok { k := ⟨pk.bytes⟩, seq := beToNat ((bytes.drop 64).take 8),
              v := bytes.drop 72, sig := bytes.take 64 }
      else .error .InvalidSignature) := by
  simp only [tryFromRelayResponseWith]
  rw [if_neg (by omega : ¬ bytes.length < 64),
    if_neg (by omega : ¬ bytes.length < 72)]

theorem verify_sign (kp : Keypair) (m : List Nat) :
    (kp.public_key).verify m (kp.sign m) = true := by
  simp [PublicKey.verify, Keypair.sign, Keypair.public_key]

theorem verify_sign_ne (kp : Keypair) (m : List Nat) (pk2 : PublicKey)
    (h32 : pk2.bytes.length = 32) (hne : pk2 ≠ kp.public_key) :
    pk2.verify m (kp.sign m) = false := by
  obtain ⟨b⟩ := pk2
  simp only [PublicKey.verify, Keypair.sign]
  rw [beq_eq_false_iff_ne]
  intro heq
  have hlen : (encodeBE 32 kp.sk).length = b.length := by
    rw [encodeBE_length]; exact h32.symm
  have hb := (List.append_inj heq hlen).1
  apply hne
  show PublicKey.mk b = kp.public_key
  rw [Keypair.public_key]
  exact congrArg PublicKey.mk hb.symm

/-- C2: Round-trip of the relay encoding: for every keypair, sequence (the
wall-clock reading, a `u64`) and record payload, building the envelope by
signing and serializing it to the relay wire format, then parsing those bytes
back with the same public key, succeeds and reproduces the original sequence
and payload unchanged; parsing the same bytes with a different (32-byte)
public key fails with `InvalidSignature`. -/
theorem relay_roundtrip (kp : Keypair) (seq : Nat) (v : List Nat)
    (hseq : seq < 2 ^ 64) :
    Bep44Args.try_from_relay_response kp.public_key
        ((Bep44Args.try_from_packet kp seq v).relay_payload) =
      .ok (Bep44Args.try_from_packet kp seq v) ∧
    (Bep44Args.try_from_packet kp seq v).seq = seq ∧
    (Bep44Args.try_from_packet kp seq v).v = v ∧
    ∀ pk2 : PublicKey, pk2.bytes.length = 32 → pk2 ≠ kp.public_key →
      Bep44Args.try_from_relay_response pk2
          ((Bep44Args.try_from_packet kp seq v).relay_payload) =
        .error .InvalidSignature := by
  have hsig : (kp.sign (signable seq v)).length = 64 := sign_length kp _
  have hpayload : (Bep44Args.try_from_packet kp seq v).relay_payload =
      kp.sign (signable seq v) ++ (encodeBE 8 seq ++ v) := by
    simp [Bep44Args.try_from_packet, Bep44Args.relay_payload]
  have hlen : ((Bep44Args.try_from_packet kp seq v).relay_payload).length =
      72 + v.length := by
    simp [hpayload, hsig, encodeBE_length]; omega
  have htake : ((Bep44Args.try_from_packet kp seq v).relay_payload).take 64 =
      kp.sign (signable seq v) := by
    rw [hpayload]; exact take_append_len _ _ _ hsig
  have hdrop : ((Bep44Args.try_from_packet kp seq v).relay_payload).drop 64 =
      encodeBE 8 seq ++ v := by
    rw [hpayload]; exact drop_append_len _ _ _ hsig
  have htake8 :
      (((Bep44Args.try_from_packet kp seq v).relay_payload).drop 64).take 8 =
      encodeBE 8 seq := by
    rw [hdrop]; exact take_append_len _ _ _ (encodeBE_length 8 seq)
  have hdrop72 :
      ((Bep44Args.try_from_packet kp seq v).relay_payload).drop 72 = v := by
    have h0 : (72 : Nat) = 64 + 8 := by omega
    rw [h0, ← List.drop_drop, hdrop]
    exact drop_append_len _ _ _ (encodeBE_length 8 seq)
  have hseqdec : beToNat (encodeBE 8 seq) = seq := by
    rw [beToNat_encodeBE]
    have h8 : (256 : Nat) ^ 8 = 2 ^ 64 := by norm_num
    rw [h8]
    exact Nat.mod_eq_of_lt hseq
  refine ⟨?_, rfl, rfl, ?_⟩
  · rw [Bep44Args.try_from_relay_response,
      tryFromRelayResponseWith_ge72 _ _ _ (by omega),
      htake, htake8, hdrop72, hseqdec, if_pos (verify_sign kp _)]
    rfl
  · intro pk2 h32 hne
    rw [Bep44Args.try_from_relay_response,
      tryFromRelayResponseWith_ge72 _ _ _ (by omega),
      htake, htake8, hdrop72, hseqdec]
    rw [if_neg]
    intro hv
    rw [verify_sign_ne kp _ pk2 h32 hne] at hv
    exact Bool.false_ne_true hv

/-- Witness for C2 at a concrete keypair, sequence and payload. -/
theorem relay_roundtrip_witness :
    (3 : Nat) < 2 ^ 64 ∧
    Bep44Args.try_from_relay_response (Keypair.public_key ⟨5⟩)
        ((Bep44Args.try_from_packet ⟨5⟩ 3 [1, 2]).relay_payload) =
      .ok (Bep44Args.try_from_packet ⟨5⟩ 3 [1, 2]) ∧
    Bep44Args.try_from_relay_response ⟨encodeBE 32 6⟩
        ((Bep44Args.try_from_packet ⟨5⟩ 3 [1, 2]).relay_payload) =
      .error .InvalidSignature := by
  have h := relay_roundtrip ⟨5⟩ 3 [1, 2] (by norm_num)
  exact ⟨by norm_num, h.1,
    h.2.2.2 ⟨encodeBE 32 6⟩ (by decide) (by decide)⟩

/-- C3: Successful relay parse decomposition: for every byte string of length
at least 72, `try_from_relay_response` splits signature `bytes[0:64]`,
big-endian sequence `bytes[64:72]`, payload `bytes[72:]`, rebuilds the
canonical signable string from (sequence, payload) and verifies it under the
given public key; on verification failure it returns `InvalidSignature`, and
on success the returned envelope carries exactly that signature, sequence and
payload. -/
theorem relay_parse_decomposition (pk : PublicKey) (bytes : List Nat)
    (h : 72 ≤ bytes.length) :
    Bep44Args.try_from_relay_response pk bytes =
      (if pk.verify (signable (beToNat ((bytes.drop 64).take 8))
            (bytes.drop 72)) (bytes.take 64) then
        .ok { k := ⟨pk.bytes⟩, seq := beToNat ((bytes.drop 64).take 8),
              v := bytes.drop 72, sig := bytes.take 64 }
      else .error .InvalidSignature) :=
  tryFromRelayResponseWith_ge72 (fun m s => pk.verify m s) pk bytes h

/-- Witness for C3 at a concrete public key and a concrete 72-byte input
(whose all-zero signature does not verify, so the parse is
`InvalidSignature`). -/
theorem relay_parse_decomposition_witness :
    (72 : Nat) ≤ (List.replicate 72 0).length ∧
    Bep44Args.try_from_relay_response ⟨encodeBE 32 6⟩ (List.replicate 72 0) =
      .error .InvalidSignature := by
  refine ⟨by decide, ?_⟩
  rw [relay_parse_decomposition ⟨encodeBE 32 6⟩ (List.replicate 72 0)
    (by decide)]
  rw [if_neg]
  decide

/-- C4: Short-input rejection before verification: for every verification
predicate (so no verification can influence the result), byte strings shorter
than 64 fail with `RelayPayloadInvalidSignatureLength` carrying the input
length, and byte strings of length in `[64, 72)` fail with
`RelayPayloadInvalidSequenceLength` carrying the length minus 64. -/
theorem relay_parse_short_input (ver : List Nat → List Nat → Bool)
    (pk : PublicKey) (bytes : List Nat) :
    (bytes.length < 64 →
      tryFromRelayResponseWith ver pk bytes =
        .error (.RelayPayloadInvalidSignatureLength bytes.length)) ∧
    (64 ≤ bytes.length → bytes.length < 72 →
      tryFromRelayResponseWith ver pk bytes =
        .error (.RelayPayloadInvalidSequenceLength (bytes.length - 64))) := by
  constructor
  · intro h
    simp only [tryFromRelayResponseWith]
    rw [if_pos h]
  · intro h64 h72
    simp only [tryFromRelayResponseWith]
    rw [if_neg (by omega : ¬ bytes.length < 64), if_pos h72]

/-- Witness for C4: a 3-byte input and a 70-byte input, under a verification
predicate that would accept anything (showing it is never consulted). -/
theorem relay_parse_short_input_witness :
    tryFromRelayResponseWith (fun _ _ => true) ⟨[]⟩ [9, 9, 9] =
      .error (.RelayPayloadInvalidSignatureLength 3) ∧
    tryFromRelayResponseWith (fun _ _ => true) ⟨[]⟩ (List.replicate 70 0) =
      .error (.RelayPayloadInvalidSequenceLength 6) :=
  ⟨(relay_parse_short_input (fun _ _ => true) ⟨[]⟩ [9, 9, 9]).1 (by decide),
   (relay_parse_short_input (fun _ _ => true) ⟨[]⟩
      (List.replicate 70 0)).2 (by decide) (by decide)⟩

/-- C5: Canonical signable encoding: for every sequence number and payload,
the signable byte string is exactly the ASCII framing
`"3:seqi<sequence>e1:v<len(payload)>:"` — sequence and payload length
rendered as base-10 digits — immediately followed by the raw payload bytes. -/
theorem signable_canonical (seq : Nat) (v : List Nat) :
    signable seq v =
      asciiBytes "3:seqi" ++ decimalDigitsAscii seq ++ asciiBytes "e1:v" ++
        decimalDigitsAscii v.length ++ asciiBytes ":" ++ v := by
  simp [signable, u64Decimal_eq, List.append_assoc]

theorem cache_get_cons (e : StoredPacket) (rest : PkarrCache) (k : PublicKey) :
    PkarrCache.get (e :: rest) k =
      if e.public_key = k then some e else rest.get k := by
  by_cases h : e.public_key = k <;> simp [PkarrCache.get, List.find?_cons, h]

theorem cache_put_frame (c : PkarrCache) (p : StoredPacket) (k : PublicKey)
    (h : p.public_key ≠ k) : (c.put p).get k = c.get k := by
  induction c with
  | nil => simp [PkarrCache.put, cache_get_cons, h]
  | cons e rest ih =>
    by_cases he : e.public_key = p.public_key
    · by_cases hs : e.seq < p.seq
      · simp [PkarrCache.put, he, hs, cache_get_cons, h]
      · simp [PkarrCache.put, he, hs]
    · simp [PkarrCache.put, he, cache_get_cons, ih]

theorem cache_put_get_none (c : PkarrCache) (p : StoredPacket)
    (h : c.get p.public_key = none) :
    (c.put p).get p.public_key = some p := by
  induction c with
  | nil => simp [PkarrCache.put, PkarrCache.get, List.find?]
  | cons e rest ih =>
    rw [cache_get_cons] at h
    by_cases he : e.public_key = p.public_key
    · rw [if_pos he] at h; exact absurd h (by simp)
    · rw [if_neg he] at h
      simp [PkarrCache.put, he, cache_get_cons, ih h]

theorem cache_put_get_lt (c : PkarrCache) (p e : StoredPacket)
    (h : c.get p.public_key = some e) (hs : e.seq < p.seq) :
    (c.put p).get p.public_key = some p := by
  induction c with
  | nil => simp [PkarrCache.get, List.find?] at h
  | cons e0 rest ih =>
    rw [cache_get_cons] at h
    by_cases he : e0.public_key = p.public_key
    · rw [if_pos he] at h
      have he0 : e0 = e := by injection h
      subst he0
      simp [PkarrCache.put, he, hs, cache_get_cons]
    · rw [if_neg he] at h
      simp [PkarrCache.put, he, cache_get_cons, ih h]

theorem cache_put_noop (c : PkarrCache) (p e : StoredPacket)
    (hget : c.get p.public_key = some e) (hs : p.seq ≤ e.seq) :
    c.put p = c := by
  induction c with
  | nil => simp [PkarrCache.get, List.find?] at hget
  | cons e0 rest ih =>
    rw [cache_get_cons] at hget
    by_cases he : e0.public_key = p.public_key
    · rw [if_pos he] at hget
      have he0 : e0 = e := by injection hget
      subst he0
      simp [PkarrCache.put, he, Nat.not_lt.2 hs]
    · rw [if_neg he] at hget
      simp [PkarrCache.put, he, ih hget]

theorem cache_put_get_self (c : PkarrCache) (p : StoredPacket) :
    ∃ e0, (c.put p).get p.public_key = some e0 ∧ p.seq ≤ e0.seq ∧
      (e0 = p ∨ c.get p.public_key = some e0) := by
  cases hcg : c.get p.public_key with
  | none => exact ⟨p, cache_put_get_none c p hcg, le_refl _, Or.inl rfl⟩
  | some ex =>
    by_cases hs : ex.seq < p.seq
    · exact ⟨p, cache_put_get_lt c p ex hcg hs, le_refl _, Or.inl rfl⟩
    · refine ⟨ex, ?_, by omega, Or.inr rfl⟩
      rw [cache_put_noop c p ex hcg (by omega)]
      exact hcg

theorem cache_foldl_mono (ps : List StoredPacket) (c : PkarrCache)
    (k : PublicKey) (e : StoredPacket) (hget : c.get k = some e) :
    ∃ e', (List.foldl PkarrCache.put c ps).get k = some e' ∧
      e.seq ≤ e'.seq := by
  induction ps generalizing c e with
  | nil => exact ⟨e, hget, le_refl _⟩
  | cons p ps ih =>
    rw [List.foldl_cons]
    by_cases hk : p.public_key = k
    · subst hk
      obtain ⟨e0, h0, hple, horig⟩ := cache_put_get_self c p
      obtain ⟨e', h1, h2⟩ := ih _ _ h0
      refine ⟨e', h1, ?_⟩
      rcases horig with h | h
      · -- insert/replace case (`e0 = p`): the prior entry `e` can only have
        -- been dropped when its sequence was strictly below `p.seq`
        by_contra hlt
        cases hcg : c.get p.public_key with
        | none => rw [hcg] at hget; cases hget
        | some ex =>
          rw [hcg] at hget
          have hexe := congrArg StoredPacket.seq (Option.some.inj hget)
          have h3 := congrArg StoredPacket.seq h
          by_cases hs : ex.seq < p.seq
          · omega
          · rw [cache_put_noop c p ex hcg (by omega)] at h0
            rw [hcg] at h0
            have h6 := congrArg StoredPacket.seq (Option.some.inj h0)
            omega
      · rw [hget] at h
        have h5 := congrArg StoredPacket.seq (Option.some.inj h)
        omega
    · exact ih _ _ (by rw [cache_put_frame c p k hk]; exact hget)

theorem cache_foldl_origin (ps : List StoredPacket) (c : PkarrCache)
    (k : PublicKey) (e : StoredPacket)
    (hget : (List.foldl PkarrCache.put c ps).get k = some e) :
    (∀ q ∈ ps, q.public_key = k → q.seq ≤ e.seq) ∧
      ((e ∈ ps ∧ e.public_key = k) ∨ c.get k = some e) := by
  induction ps generalizing c with
  | nil => exact ⟨by simp, Or.inr hget⟩
  | cons p ps ih =>
    rw [List.foldl_cons] at hget
    obtain ⟨hall, horigin⟩ := ih (c.put p) hget
    constructor
    · intro q hq hqk
      rcases List.mem_cons.1 hq with hq | hq
      · subst hq
        obtain ⟨e0, h0, hple, _⟩ := cache_put_get_self c q
        rw [hqk] at h0
        obtain ⟨e', h1, h2⟩ := cache_foldl_mono ps (c.put q) k e0 h0
        rw [hget] at h1
        have hse := congrArg StoredPacket.seq (Option.some.inj h1)
        omega
      · exact hall q hq hqk
    · rcases horigin with h | h
      · exact Or.inl ⟨List.mem_cons_of_mem _ h.1, h.2⟩
      · by_cases hk : p.public_key = k
        · subst hk
          obtain ⟨e0, h0, hple, horig⟩ := cache_put_get_self c p
          rw [h] at h0
          have he0 : e = e0 := by injection h0
          subst he0
          rcases horig with h1 | h1
          · exact Or.inl ⟨by rw [h1]; exact List.mem_cons_self _ _, by
              rw [h1]⟩
          · exact Or.inr h1
        · exact Or.inr (by rw [← cache_put_frame c p k hk]; exact h)

/-- C1: `Cache.put` is guarded by monotonic sequence numbers: `put` inserts
when no entry for the key exists, replaces the stored entry exactly when the
new sequence is strictly greater, and otherwise leaves the cache unchanged;
across any sequence of puts the stored sequence per key never decreases, and
after any sequence of puts into an initially empty cache, `get` returns the
stored packet with the highest sequence seen for that key. -/
theorem cache_put_monotonic :
    (∀ (c : PkarrCache) (p : StoredPacket),
      c.get p.public_key = none → (c.put p).get p.public_key = some p) ∧
    (∀ (c : PkarrCache) (p e : StoredPacket),
      c.get p.public_key = some e → e.seq < p.seq →
      (c.put p).get p.public_key = some p) ∧
    (∀ (c : PkarrCache) (p e : StoredPacket),
      c.get p.public_key = some e → p.seq ≤ e.seq → c.put p = c) ∧
    (∀ (ps : List StoredPacket) (c : PkarrCache) (k : PublicKey)
      (e : StoredPacket), c.get k = some e →
      ∃ e', (List.foldl PkarrCache.put c ps).get k = some e' ∧
        e.seq ≤ e'.seq) ∧
    (∀ (ps : List StoredPacket) (k : PublicKey) (e : StoredPacket),
      (List.foldl PkarrCache.put [] ps).get k = some e →
      e ∈ ps ∧ e.public_key = k ∧
        ∀ q ∈ ps, q.public_key = k → q.seq ≤ e.seq) := by
  refine ⟨cache_put_get_none, cache_put_get_lt, cache_put_noop,
    cache_foldl_mono, ?_⟩
  intro ps k e hget
  obtain ⟨hall, horigin⟩ := cache_foldl_origin ps [] k e hget
  rcases horigin with h | h
  · exact ⟨h.1, h.2, hall⟩
  · simp [PkarrCache.get, List.find?] at h

/-- Witness for C1, replaying the spec's §8 scenario: insert sequence 100 for
a fresh key, drop a stale write with sequence 99, replace with sequence 150;
and the stored sequence over that whole history is the maximum, 150. -/
theorem cache_put_monotonic_witness :
    (PkarrCache.put [] ⟨⟨[1]⟩, 100, [7]⟩).get ⟨[1]⟩ =
      some ⟨⟨[1]⟩, 100, [7]⟩ ∧
    PkarrCache.put [⟨⟨[1]⟩, 100, [7]⟩] ⟨⟨[1]⟩, 99, [8]⟩ =
      [⟨⟨[1]⟩, 100, [7]⟩] ∧
    (PkarrCache.put [⟨⟨[1]⟩, 100, [7]⟩] ⟨⟨[1]⟩, 150, [9]⟩).get ⟨[1]⟩ =
      some ⟨⟨[1]⟩, 150, [9]⟩ ∧
    (List.foldl PkarrCache.put []
        [⟨⟨[1]⟩, 100, [7]⟩, ⟨⟨[1]⟩, 99, [8]⟩, ⟨⟨[1]⟩, 150, [9]⟩]).get ⟨[1]⟩ =
      some ⟨⟨[1]⟩, 150, [9]⟩ ∧
    (100 : Nat) ≤ 150 :=
  ⟨cache_put_monotonic.1 [] ⟨⟨[1]⟩, 100, [7]⟩ (by decide),
   cache_put_monotonic.2.2.1 [⟨⟨[1]⟩, 100, [7]⟩] ⟨⟨[1]⟩, 99, [8]⟩
     ⟨⟨[1]⟩, 100, [7]⟩ (by decide) (by decide),
   cache_put_monotonic.2.1 [⟨⟨[1]⟩, 100, [7]⟩] ⟨⟨[1]⟩, 150, [9]⟩
     ⟨⟨[1]⟩, 100, [7]⟩ (by decide) (by decide),
   by decide,
   (cache_put_monotonic.2.2.2.2
     [⟨⟨[1]⟩, 100, [7]⟩, ⟨⟨[1]⟩, 99, [8]⟩, ⟨⟨[1]⟩, 150, [9]⟩] ⟨[1]⟩
     ⟨⟨[1]⟩, 150, [9]⟩ (by decide)).2.2 ⟨⟨[1]⟩, 100, [7]⟩ (by decide)
     (by decide)⟩

end Pkarr

namespace PkarrServer

/-- C6: Serve-stale synchronous response: whenever the target of an inbound
`GetValue` request is present in the cache, `handle_request` emits exactly one
response, built from the cached packet's value, public key, sequence and
signature bytes, as its very first effect — before any freshness evaluation
and regardless of whether the entry is expired. -/
theorem serve_stale_response (s : DhtServer) (rpcId : Nat) (fromAddr : Addr)
    (tid : Nat) (req : RequestSpecific) (args : GetValueRequestArguments)
    (cached : CachedSignedPacket)
    (hreq : req.requestType = .getValue args)
    (hc : s.cacheGet args.target = some cached) :
    (handleRequest s rpcId fromAddr tid req).head? =
      some (Effect.response fromAddr tid (.getMutable
        { responderId := rpcId, token := [0, 0, 0, 0], nodes := none,
          v := cached.valueBytes, k := cached.keyBytes,
          seq := cached.seqNumber, sig := cached.sigBytes })) ∧
    ((handleRequest s rpcId fromAddr tid req).filter
        Effect.isResponse).length = 1 := by
  simp only [handleRequest, hreq, hc]
  constructor
  · simp
  · by_cases hexp : cached.expires_in s.minimum_ttl s.maximum_ttl == 0 <;>
      by_cases hlim : s.is_limited fromAddr.ip <;>
        simp [hexp, hlim, Effect.isResponse, List.filter]

/-- Witness for C6 at the sample server, on a target whose cached entry is
expired (the response is served all the same). -/
theorem serve_stale_response_witness :
    (handleRequest sampleServer 3 ⟨5, 6⟩ 9 (sampleGetReq 8)).head? =
      some (Effect.response ⟨5, 6⟩ 9 (.getMutable
        { responderId := 3, token := [0, 0, 0, 0], nodes := none,
          v := [2, 3], k := [1], seq := 5, sig := [4] })) ∧
    ((handleRequest sampleServer 3 ⟨5, 6⟩ 9 (sampleGetReq 8)).filter
        Effect.isResponse).length = 1 :=
  serve_stale_response sampleServer 3 ⟨5, 6⟩ 9 (sampleGetReq 8)
    ⟨8, some 42, some [6]⟩ sampleExpiredPacket rfl rfl

/-- C7: Refresh gating: on an inbound `GetValue` request, `handle_request`
issues an outbound DHT lookup if and only if the cache misses or the cached
entry's `expires_in(minimum_ttl, maximum_ttl)` is 0, and the source IP is not
rate limited; when rate limited the refresh is dropped with no further
action, and at most one outbound lookup is issued per request. -/
theorem refresh_gating (s : DhtServer) (rpcId : Nat) (fromAddr : Addr)
    (tid : Nat) (req : RequestSpecific) (args : GetValueRequestArguments)
    (hreq : req.requestType = .getValue args) :
    (handleRequest s rpcId fromAddr tid req).filter Effect.isDhtGet =
      (if ((match s.cacheGet args.target with
            | none => true
            | some cached =>
              cached.expires_in s.minimum_ttl s.maximum_ttl == 0) &&
            !(s.is_limited fromAddr.ip)) = true then
        [Effect.dhtGet args.target
          { target := args.target, seq := none, salt := none } s.resolvers]
      else []) := by
  simp only [handleRequest, hreq]
  cases hc : s.cacheGet args.target with
  | none =>
    by_cases hlim : s.is_limited fromAddr.ip <;>
      simp [hlim, Effect.isDhtGet, List.filter]
  | some cached =>
    by_cases hexp : cached.expires_in s.minimum_ttl s.maximum_ttl == 0 <;>
      by_cases hlim : s.is_limited fromAddr.ip <;>
        simp [hexp, hlim, Effect.isDhtGet, List.filter]

/-- Witness for C7 at the sample server: the expired cached target from a
non-limited source triggers exactly one outbound lookup. -/
theorem refresh_gating_witness :
    (handleRequest sampleServer 3 ⟨5, 6⟩ 9 (sampleGetReq 8)).filter
        Effect.isDhtGet =
      [Effect.dhtGet 8 ⟨8, none, none⟩ (some [⟨9, 9⟩])] := by
  rw [refresh_gating sampleServer 3 ⟨5, 6⟩ 9 (sampleGetReq 8)
    ⟨8, some 42, some [6]⟩ rfl]
  decide

/-- C8: Every inbound request, of every kind — including `GetValue` requests
already answered from cache or used to trigger a refresh — is passed exactly
once, unchanged, to the inner default DHT server's `handle_request`. -/
theorem inner_delegation (s : DhtServer) (rpcId : Nat) (fromAddr : Addr)
    (tid : Nat) (req : RequestSpecific) :
    (handleRequest s rpcId fromAddr tid req).filter Effect.isInnerHandle =
      [Effect.innerHandleRequest fromAddr tid req] := by
  obtain ⟨rid, rt⟩ := req
  cases rt with
  | getValue args =>
    simp only [handleRequest]
    cases hc : s.cacheGet args.target with
    | none =>
      by_cases hlim : s.is_limited fromAddr.ip <;>
        simp [hlim, Effect.isInnerHandle, List.filter]
    | some cached =>
      by_cases hexp : cached.expires_in s.minimum_ttl s.maximum_ttl == 0 <;>
        by_cases hlim : s.is_limited fromAddr.ip <;>
          simp [hexp, hlim, Effect.isInnerHandle, List.filter]
  | otherRequest kind =>
    simp [handleRequest, Effect.isInnerHandle, List.filter]

/-- C9: Every outbound refresh lookup `handle_request` ever issues carries
`seq = None` and `salt = None` — whatever sequence or salt the inbound
request carried — targets the same key it was built for, and passes the
configured resolver addresses. -/
theorem refresh_args_fresh (s : DhtServer) (rpcId : Nat) (fromAddr : Addr)
    (tid : Nat) (req : RequestSpecific) (t : Nat)
    (a : GetValueRequestArguments) (r : Option (List Addr))
    (h : Effect.dhtGet t a r ∈ handleRequest s rpcId fromAddr tid req) :
    a.seq = none ∧ a.salt = none ∧ a.target = t ∧ r = s.resolvers := by
  obtain ⟨rid, rt⟩ := req
  cases rt with
  | getValue args =>
    simp only [handleRequest] at h
    cases hc : s.cacheGet args.target with
    | none =>
      rw [hc] at h
      by_cases hlim : s.is_limited fromAddr.ip <;>
        · simp [hlim] at h
          try { obtain ⟨h1, h2, h3⟩ := h; subst h1; subst h2; subst h3
                exact ⟨rfl, rfl, rfl, rfl⟩ }
    | some cached =>
      rw [hc] at h
      by_cases hexp :
          cached.expires_in s.minimum_ttl s.maximum_ttl == 0 <;>
        by_cases hlim : s.is_limited fromAddr.ip <;>
          · simp [hexp, hlim] at h
            try { obtain ⟨h1, h2, h3⟩ := h; subst h1; subst h2; subst h3
                  exact ⟨rfl, rfl, rfl, rfl⟩ }
  | otherRequest kind =>
    simp [handleRequest] at h

/-- Witness for C9 at the sample server: the lookup issued for the expired
target 8 carries `seq = none`, `salt = none`, targets 8, and the configured
resolvers. -/
theorem refresh_args_fresh_witness :
    (⟨8, none, none⟩ : GetValueRequestArguments).seq = none ∧
    (⟨8, none, none⟩ : GetValueRequestArguments).salt = none ∧
    (⟨8, none, none⟩ : GetValueRequestArguments).target = 8 ∧
    (some [⟨9, 9⟩] : Option (List Addr)) = sampleServer.resolvers :=
  refresh_args_fresh sampleServer 3 ⟨5, 6⟩ 9 (sampleGetReq 8) 8
    ⟨8, none, none⟩ (some [⟨9, 9⟩]) (by decide)

/-- C10: On a `GetValue` request whose target is cached and not expired,
`handle_request` performs no outbound lookup and never consults the rate
limiter (so the limiter's state is untouched by fresh cache hits). -/
theorem fresh_hit_no_refresh (s : DhtServer) (rpcId : Nat) (fromAddr : Addr)
    (tid : Nat) (req : RequestSpecific) (args : GetValueRequestArguments)
    (cached : CachedSignedPacket)
    (hreq : req.requestType = .getValue args)
    (hc : s.cacheGet args.target = some cached)
    (hfresh : 0 < cached.expires_in s.minimum_ttl s.maximum_ttl) :
    (handleRequest s rpcId fromAddr tid req).filter
      (fun e => e.isDhtGet || e.isRateLimitCheck) = [] := by
  simp only [handleRequest, hreq, hc]
  have hexp : (cached.expires_in s.minimum_ttl s.maximum_ttl == 0) = false := by
    simp; omega
  simp [hexp, Effect.isDhtGet, Effect.isRateLimitCheck, List.filter]

/-- Witness for C10 at the sample server: the fresh cached target 7 produces
neither an outbound lookup nor a rate-limiter consultation. -/
theorem fresh_hit_no_refresh_witness :
    (handleRequest sampleServer 3 ⟨5, 6⟩ 9 (sampleGetReq 7)).filter
      (fun e => e.isDhtGet || e.isRateLimitCheck) = [] :=
  fresh_hit_no_refresh sampleServer 3 ⟨5, 6⟩ 9 (sampleGetReq 7)
    ⟨7, some 42, some [6]⟩ sampleFreshPacket rfl rfl (by decide)

end PkarrServer
